import Mathlib

/-!
# Verification of the campsite availability checker (`camping.py`)

A shallow embedding of the availability-checking program into Lean 4.

Modelling conventions:

* Calendar dates are modelled by the structure `YMD` (year, month, day).
  The Python program passes dates around as ISO-formatted strings
  (`"%Y-%m-%dT00:00:00Z"`); formatting/parsing is a bijection between valid
  calendar dates and those strings, so date-string comparisons in the source
  are modelled as comparisons of `YMD` values / their proleptic Gregorian
  ordinals (`YMD.toOrdinal`, mirroring Python's `date.toordinal`).
* `requests.get` responses are modelled by `HttpResponse` (a status code and a
  parsed body); the network is an oracle (`ApiTick`) mapping each request to a
  response.  Raised exceptions are modelled with `Except`, where the error
  payload is the offending HTTP status code.
* The unbounded polling loop `execute_check_every_min` is modelled with an
  explicit fuel parameter bounding how many retry ticks are simulated; the
  external world may change between ticks, so the oracle is indexed by the
  tick number.
* Side effects that matter to the specification (HTTP requests, `time.sleep`,
  logging) are recorded in an explicit event trace.
-/

set_option linter.unusedVariables false

namespace Camping

/-- A calendar date: year, month, day (as in Python's `datetime.date`). -/
structure YMD where
  year : Nat
  month : Nat
  day : Nat
deriving DecidableEq, Repr

/-- Gregorian leap-year test, as in Python's `calendar.isleap`. -/
def isLeap (y : Nat) : Bool :=
  (y % 4 == 0 && y % 100 != 0) || y % 400 == 0

/-- Cumulative day count of the months before month `m` in a non-leap year. -/
def cumDays : Nat → Nat
  | 1 => 0
  | 2 => 31
  | 3 => 59
  | 4 => 90
  | 5 => 120
  | 6 => 151
  | 7 => 181
  | 8 => 212
  | 9 => 243
  | 10 => 273
  | 11 => 304
  | 12 => 334
  | _ => 0

/-- Days in all years strictly before year `y` (proleptic Gregorian),
as in CPython's `datetime._days_before_year`. -/
def daysBeforeYear (y : Nat) : Nat :=
  365 * (y - 1) + (y - 1) / 4 - (y - 1) / 100 + (y - 1) / 400

/-- Python's `date.toordinal`: day number with `0001-01-01` as day 1.
Returned as `Int` so that date differences (`(end - start).days`) are ordinary
integer subtractions. -/
def YMD.toOrdinal (d : YMD) : Int :=
  (daysBeforeYear d.year + cumDays d.month +
    (if d.month > 2 && isLeap d.year then 1 else 0) + d.day : Nat)

/-- Python `datetime` comparison (lexicographic on year, month, day);
`dateLE a b` models `a <= b`. -/
def dateLE (a b : YMD) : Bool :=
  a.year < b.year ||
    (a.year == b.year &&
      (a.month < b.month || (a.month == b.month && a.day ≤ b.day)))

/-! ## Month anchors (`rrule.rrule(MONTHLY, dtstart=start_of_month, until=end_date)`)

`get_park_information` computes the first of `start_date`'s month and then all
month-firsts up to and including `end_date`'s month:

```python
start_of_month = datetime(start_date.year, start_date.month, 1)
months = list(rrule.rrule(rrule.MONTHLY, dtstart=start_of_month, until=end_date))
```

A month anchor is represented by its `(year, month)` pair (the day is always
the first of the month).  The `rrule` iteration "emit the current month-first
while it is `≤ until`, then step one month" is embedded with an explicit fuel
that is chosen large enough to cover the whole range, so that the function is
structurally recursive and computable. -/

/-- Linear index of a calendar month (for measuring month distances). -/
def monthIndex (y m : Nat) : Nat := y * 12 + (m - 1)

/-- The `(year, month)` pair of the month with linear index `n`. -/
def monthOfIndex (n : Nat) : Nat × Nat := (n / 12, n % 12 + 1)

/-- Step to the following calendar month. -/
def nextMonth (y m : Nat) : Nat × Nat :=
  if m = 12 then (y + 1, 1) else (y, m + 1)

/-- Fuel-bounded `rrule` MONTHLY iteration: emit `(y, m)` while the first of
that month is `≤ u`, then advance one month. -/
def monthsFromAux (u : YMD) : Nat → Nat → Nat → List (Nat × Nat)
  | 0, _, _ => []
  | fuel + 1, y, m =>
      if dateLE ⟨y, m, 1⟩ u then
        (y, m) :: monthsFromAux u fuel (nextMonth y m).1 (nextMonth y m).2
      else []

/-- The list of month anchors queried by `get_park_information`: every
month-first from the month containing the start date through (at most) the
month containing `u`.  The fuel `monthIndex u.year u.month + 1 - monthIndex y m`
is exactly the number of anchors when the range is non-empty, so the
fuel never cuts the iteration short (see `monthsFromAux_spec`). -/
def monthsFrom (y m : Nat) (u : YMD) : List (Nat × Nat) :=
  monthsFromAux u (monthIndex u.year u.month + 1 - monthIndex y m) y m

/-! ## Consecutive-run detection (`consecutive_nights`)

```python
def consecutive_nights(available, nights):
    ordinal_dates = [datetime.strptime(dstr, ISO_DATE_FORMAT_RESPONSE).toordinal() for dstr in available]
    c = count()
    longest_consecutive = max((list(g) for _, g in groupby(ordinal_dates, lambda x: x-next(c))), key=len)
    return len(longest_consecutive) >= nights
```

`groupby` with the key `x - next(c)` groups *maximal blocks of the list, in
the order supplied*, in which each element is the predecessor plus one.  The
list is **not** sorted first.  `max(..., key=len)` raises `ValueError` on an
empty list, which is modelled by returning `none`. -/

/-- Split a list of ordinals into the maximal blocks (in list order) in which
each element is its predecessor plus 1 — the groups produced by
`groupby(ordinal_dates, lambda x: x - next(c))`. -/
def splitRuns : List Int → List (List Int)
  | [] => []
  | [x] => [[x]]
  | x :: y :: xs =>
      match splitRuns (y :: xs) with
      | g :: gs => if y = x + 1 then (x :: g) :: gs else [x] :: g :: gs
      | [] => [[x]]

/-- `consecutive_nights(available, nights)`; `none` models the `ValueError`
Python's `max` raises when `available` is empty. -/
def consecutiveNights (available : List Int) (nights : Int) : Option Bool :=
  match (splitRuns available).map List.length with
  | [] => none
  | n :: ns => some (decide (nights ≤ (ns.foldl max n : Nat)))

/-! ## Site counting (`get_num_available_sites`) -/

/-- The set of nights in the requested window, built as in
`[end_date - timedelta(days=i) for i in range(1, num_days + 1)]`
(ordinals `endO - 1, endO - 2, ..., endO - numDays`; empty if
`numDays ≤ 0`). -/
def windowOrds (endO : Int) (numDays : Int) : List Int :=
  (List.range numDays.toNat).map (fun (i : Nat) => endO - ((i : Int) + 1))

/-- The night count actually used:
`if nights not in range(1, num_days + 1): nights = num_days`.
`none` models an unset `--nights` argument. -/
def effectiveNights (nights : Option Int) (numDays : Int) : Int :=
  match nights with
  | some k => if 1 ≤ k ∧ k ≤ numDays then k else numDays
  | none => numDays

/-- One iteration of the site loop of `get_num_available_sites`: restrict the
site's available dates to the window (preserving the supplied order) and test
`desired_available and consecutive_nights(desired_available, nights)`.
Python's `and` short-circuits, so `consecutive_nights` is never called with an
empty list; `some false` on the empty intersection records that no exception
is raised there. -/
def siteQualifies (avail : List Int) (dates : List Int) (nights : Int) : Option Bool :=
  let desired := avail.filter (fun d => decide (d ∈ dates))
  if desired.isEmpty then some false else consecutiveNights desired nights

/-- `get_num_available_sites(park_information, start_date, end_date, nights)`:
returns `(num_available, maximum)`.  `park_information` is the normalized
site ↦ available-dates mapping (an association list, one entry per site). -/
def getNumAvailableSites (parkInformation : List (String × List YMD))
    (startD endD : YMD) (nights : Option Int) : Nat × Nat :=
  let maximum := parkInformation.length
  let numDays := endD.toOrdinal - startD.toOrdinal
  let dates := windowOrds endD.toOrdinal numDays
  let n := effectiveNights nights numDays
  (parkInformation.countP
      (fun p => decide (siteQualifies (p.2.map YMD.toOrdinal) dates n = some true)),
    maximum)

/-! ## Normalizing monthly API data (the collapse step of `get_park_information`)

```python
data = {}
for month_data in api_data:
    for campsite_id, campsite_data in month_data["campsites"].items():
        available = []
        for date, availability_value in campsite_data["availabilities"].items():
            if availability_value != "Available":
                continue
            if campsite_type and campsite_type != campsite_data["campsite_type"]:
                continue
            available.append(date)
        if available:
            a = data.setdefault(campsite_id, [])
            a += available
```

Dictionaries are modelled as association lists (in insertion order, as Python
dicts iterate). -/

/-- The per-site JSON object of one month response:
`{"campsite_type": ..., "availabilities": {date: status, ...}}`. -/
structure CampsiteData where
  campsite_type : String
  availabilities : List (YMD × String)
deriving DecidableEq, Repr

/-- The `"campsites"` mapping of one month response. -/
abbrev MonthRecord := List (String × CampsiteData)

/-- The per-date filter decision: a date is kept unless its status differs
from `"Available"` or a truthy `campsite_type` argument differs from the
record's `campsite_type`.  (Python truthiness: the empty string filter is
falsy and therefore does not filter.) -/
def keepDate (campsiteType : Option String) (cd : CampsiteData) (q : YMD × String) : Bool :=
  q.2 == "Available" &&
    !(match campsiteType with
      | none => false
      | some c => !(c == "") && !(c == cd.campsite_type))

/-- The `available` list collected for one site in one month record. -/
def availableOf (cd : CampsiteData) (campsiteType : Option String) : List YMD :=
  (cd.availabilities.filter (keepDate campsiteType cd)).map Prod.fst

/-- `data.setdefault(campsite_id, []); a += available` on an association
list: append `v` to the entry of key `k`, creating it if absent. -/
def addTo (data : List (String × List YMD)) (k : String) (v : List YMD) :
    List (String × List YMD) :=
  match data with
  | [] => [(k, v)]
  | (k', v') :: rest =>
      if k' = k then (k', v' ++ v) :: rest else (k', v') :: addTo rest k v

/-- Dictionary lookup on the normalized mapping. -/
def lookupSite : List (String × List YMD) → String → Option (List YMD)
  | [], _ => none
  | (k, v) :: rest, c => if c = k then some v else lookupSite rest c

/-- Processing of one `(campsite_id, campsite_data)` entry. -/
def stepSite (campsiteType : Option String) (data : List (String × List YMD))
    (p : String × CampsiteData) : List (String × List YMD) :=
  let av := availableOf p.2 campsiteType
  if av.isEmpty then data else addTo data p.1 av

/-- The collapse loop of `get_park_information`: fold all month records into
the normalized site ↦ available-dates mapping. -/
def collapseMonths (apiData : List MonthRecord) (campsiteType : Option String) :
    List (String × List YMD) :=
  apiData.foldl (fun data monthData => monthData.foldl (stepSite campsiteType) data) []

/-! ## HTTP layer and the full evaluation pass -/

/-- An HTTP response: status code plus (already parsed) body. -/
structure HttpResponse (α : Type) where
  status : Nat
  body : α

/-- `send_request`: raise `RuntimeError` (modelled as `Except.error` carrying
the status code) when the response status is not 200, otherwise return the
parsed body. -/
def sendRequest {α : Type} (resp : HttpResponse α) : Except Nat α :=
  if resp.status ≠ 200 then Except.error resp.status else Except.ok resp.body

/-- The external API during one polling tick: a response for every
availability query `(park, month-anchor)` and for every campground-metadata
query (`get_name_of_site`). -/
structure ApiTick where
  monthResp : Nat → Nat × Nat → HttpResponse MonthRecord
  nameResp : Nat → HttpResponse String

/-- Observable events of a run: outbound HTTP requests, log lines,
`time.sleep` calls, and the final `LOG.exception` of the polling loop. -/
inductive Event where
  | fetchAvail : Nat → Nat × Nat → Event
  | fetchMeta : Nat → Event
  | logLine : String → Event
  | sleep : Nat → Event
  | logError : Event
deriving DecidableEq, Repr

/-- The fetch loop of `get_park_information`: one availability request per
month anchor, aborting (with the exception propagating) at the first
non-success response. -/
def fetchMonths (env : ApiTick) (parkId : Nat) :
    List (Nat × Nat) → List Event × Except Nat (List MonthRecord)
  | [] => ([], Except.ok [])
  | a :: as =>
      match sendRequest (env.monthResp parkId a) with
      | Except.error e => ([Event.fetchAvail parkId a], Except.error e)
      | Except.ok monthData =>
          let rest := fetchMonths env parkId as
          (Event.fetchAvail parkId a :: rest.1, rest.2.map (monthData :: ·))

/-- `get_park_information(park_id, start_date, end_date, campsite_type)`:
query every month anchor of the range, then collapse the responses. -/
def getParkInformation (env : ApiTick) (parkId : Nat) (startD endD : YMD)
    (campsiteType : Option String) :
    List Event × Except Nat (List (String × List YMD)) :=
  match fetchMonths env parkId (monthsFrom startD.year startD.month endD) with
  | (evs, Except.error e) => (evs, Except.error e)
  | (evs, Except.ok apiData) => (evs, Except.ok (collapseMonths apiData campsiteType))

/-- `SUCCESS_EMOJI`. -/
def SUCCESS_EMOJI : String := "🏕"

/-- `FAILURE_EMOJI`. -/
def FAILURE_EMOJI : String := "❌"

/-- The per-park summary line
`"{} {} ({}): {} site(s) available out of {} site(s)"`. -/
def renderLine (emoji name : String) (parkId : Nat) (current maximum : Nat) : String :=
  emoji ++ " " ++ name ++ " (" ++ toString parkId ++ "): " ++ toString current ++
    " site(s) available out of " ++ toString maximum ++ " site(s)"

/-- Zero-padded two-digit rendering (as in `strftime`). -/
def natPad2 (n : Nat) : String :=
  if n < 10 then "0" ++ toString n else toString n

/-- Zero-padded four-digit rendering (as in `strftime`). -/
def natPad4 (n : Nat) : String :=
  if n < 10 then "000" ++ toString n
  else if n < 100 then "00" ++ toString n
  else if n < 1000 then "0" ++ toString n
  else toString n

/-- `strftime(INPUT_DATE_FORMAT)`, i.e. `%Y-%m-%d`. -/
def formatInputDate (d : YMD) : String :=
  natPad4 d.year ++ "-" ++ natPad2 d.month ++ "-" ++ natPad2 d.day

/-- The loop variables of `get_availabilities` (`emoji`, `name_of_site`,
`park_id`, `current`, `maximum`) as they stand after an iteration; the final
summary string is built from whatever they hold after the *last* iteration. -/
structure LastVars where
  emoji : String
  name : String
  parkId : Nat
  current : Nat
  maximum : Nat
deriving DecidableEq, Repr

/-- The park loop of `get_availabilities`: for each park, fetch and collapse
its information, resolve its display name, count qualifying sites, log one
summary line, update `availabilities`, and remember the loop variables.
Returns the events, and either the propagated exception or the pair
`(availabilities, last loop variables)`. -/
def evalParks (env : ApiTick) (startD endD : YMD) (campsiteType : Option String)
    (nights : Option Int) :
    List Nat → Bool → Option LastVars → List Event × Except Nat (Bool × Option LastVars)
  | [], avail, last => ([], Except.ok (avail, last))
  | parkId :: parks, avail, last =>
      match getParkInformation env parkId startD endD campsiteType with
      | (evs, Except.error e) => (evs, Except.error e)
      | (evs, Except.ok parkInformation) =>
          match sendRequest (env.nameResp parkId) with
          | Except.error e => (evs ++ [Event.fetchMeta parkId], Except.error e)
          | Except.ok nameOfSite =>
              let cm := getNumAvailableSites parkInformation startD endD nights
              let emoji := if cm.1 ≠ 0 then SUCCESS_EMOJI else FAILURE_EMOJI
              let line := renderLine emoji nameOfSite parkId cm.1 cm.2
              let rest := evalParks env startD endD campsiteType nights parks
                (avail || decide (cm.1 ≠ 0)) (some ⟨emoji, nameOfSite, parkId, cm.1, cm.2⟩)
              (evs ++ [Event.fetchMeta parkId, Event.logLine line] ++ rest.1, rest.2)

/-- `get_availabilities(start_date, end_date, parks, campsite_type, nights)`.
Returns `.ok (some out)` for the summary string returned when availability was
found, `.ok none` for the `return False` path, and `.error` for a propagated
exception.  Note the returned string is built from the loop variables of the
**last** iteration only. -/
def getAvailabilities (env : ApiTick) (startD endD : YMD) (parks : List Nat)
    (campsiteType : Option String) (nights : Option Int) :
    List Event × Except Nat (Option String) :=
  match evalParks env startD endD campsiteType nights parks false none with
  | (evs, Except.error e) => (evs, Except.error e)
  | (evs, Except.ok (avail, last)) =>
      if avail then
        match last with
        | some lv =>
            let out := renderLine lv.emoji lv.name lv.parkId lv.current lv.maximum ++
              "\nThere are campsites available from " ++ formatInputDate startD ++
              " to " ++ formatInputDate endD ++ "!!!"
            (evs ++ [Event.logLine out], Except.ok (some out))
        | none => (evs, Except.ok none)
      else (evs, Except.ok none)

/-! ## The polling loop (`execute_check_every_min`) -/

/-- The retry loop body: evaluate all parks; on an exception or a found
availability stop, otherwise `time.sleep(60)` and try again on the next tick.
`fuel` bounds how many retries are simulated (`.ok none` means the fuel ran
out while the Python loop would still be polling). -/
def runLoop (env : Nat → ApiTick) (startD endD : YMD) (parks : List Nat)
    (campsiteType : Option String) (nights : Option Int) :
    Nat → Nat → List Event × Except Nat (Option String)
  | 0, tick =>
      match getAvailabilities (env tick) startD endD parks campsiteType nights with
      | (evs, Except.error e) => (evs, Except.error e)
      | (evs, Except.ok (some out)) => (evs, Except.ok (some out))
      | (evs, Except.ok none) => (evs, Except.ok none)
  | fuel + 1, tick =>
      match getAvailabilities (env tick) startD endD parks campsiteType nights with
      | (evs, Except.error e) => (evs, Except.error e)
      | (evs, Except.ok (some out)) => (evs, Except.ok (some out))
      | (evs, Except.ok none) =>
          let rest := runLoop env startD endD parks campsiteType nights fuel (tick + 1)
          (evs ++ Event.sleep 60 :: rest.1, rest.2)

/-- `execute_check_every_min`: run the polling loop; on an exception, log it
(`LOG.exception`) and re-raise. -/
def executeCheckEveryMin (env : Nat → ApiTick) (startD endD : YMD) (parks : List Nat)
    (campsiteType : Option String) (nights : Option Int) (fuel : Nat) :
    List Event × Except Nat (Option String) :=
  match runLoop env startD endD parks campsiteType nights fuel 0 with
  | (evs, Except.error e) => (evs ++ [Event.logError], Except.error e)
  | ok => ok

/-! ## Auxiliary definitions for the verification -/

/-- The arithmetic progression `a, a+1, ..., a+n-1`: the shape of every group
produced by `splitRuns`. -/
def runFrom (a : Int) (n : Nat) : List Int :=
  (List.range n).map (fun (i : Nat) => a + (i : Int))

/-- The claim's reading of the availability filter (`C4` as written): a date
is kept iff its status is `"Available"` and *the filter is unset or equal to
the site's type*.  This is the spec predicate compared against the code's
behaviour; it differs from the code when the filter is the (set but falsy)
empty string. -/
def availableBySpec (apiData : List MonthRecord) (campsiteType : Option String)
    (cid : String) (d : YMD) : Prop :=
  ∃ m ∈ apiData, ∃ p ∈ m, p.1 = cid ∧ (d, "Available") ∈ p.2.availabilities ∧
    (campsiteType = none ∨ campsiteType = some p.2.campsite_type)

/-- A two-park environment: park 1 has one site available every night of
June 1–3, park 2 has one site with no available date at all. -/
def envTwoParks : ApiTick where
  monthResp := fun p _ =>
    if p = 1 then
      ⟨200, [("s1", ⟨"STANDARD",
        [(⟨2024, 6, 1⟩, "Available"), (⟨2024, 6, 2⟩, "Available"),
         (⟨2024, 6, 3⟩, "Available")]⟩)]⟩
    else ⟨200, [("s2", ⟨"STANDARD", [(⟨2024, 6, 1⟩, "Reserved")]⟩)]⟩
  nameResp := fun p => if p = 1 then ⟨200, "One"⟩ else ⟨200, "Two"⟩

/-- An environment in which the only site is never available. -/
def envNoAvail : ApiTick where
  monthResp := fun _ _ => ⟨200, [("s1", ⟨"STANDARD", [(⟨2024, 6, 1⟩, "Reserved")]⟩)]⟩
  nameResp := fun _ => ⟨200, "One"⟩

/-- A tick-indexed environment: nothing is available on tick 0, and park 1's
site frees up from tick 1 on. -/
def envSeq (t : Nat) : ApiTick := if t = 0 then envNoAvail else envTwoParks

/-- An environment whose availability endpoint answers 503 to everything. -/
def envFail : ApiTick where
  monthResp := fun _ _ => ⟨503, []⟩
  nameResp := fun _ => ⟨200, "One"⟩

/-- The constant tick-indexed environment that always fails. -/
def envSeqFail (t : Nat) : ApiTick := envFail

/-! ## Lemmas about the month-anchor iteration -/

/-- `monthOfIndex` inverts `monthIndex` on canonical months. -/
theorem monthOfIndex_monthIndex (y m : Nat) (h1 : 1 ≤ m) (h2 : m ≤ 12) :
    monthOfIndex (monthIndex y m) = (y, m) := by
  unfold monthOfIndex monthIndex
  refine Prod.ext ?_ ?_ <;> simp <;> omega

/-- Stepping one month forward increments the linear month index and stays
canonical. -/
theorem nextMonth_monthIndex (y m : Nat) (h1 : 1 ≤ m) (h2 : m ≤ 12) :
    monthIndex (nextMonth y m).1 (nextMonth y m).2 = monthIndex y m + 1 ∧
      1 ≤ (nextMonth y m).2 ∧ (nextMonth y m).2 ≤ 12 := by
  unfold nextMonth monthIndex
  by_cases hm : m = 12 <;> simp [hm] <;> omega

/-- The first of month `(y, m)` is `≤ u` (as `datetime` comparison) iff the
month of `(y, m)` is at most the month of `u`, for canonical inputs. -/
theorem dateLE_first_of_month (y m : Nat) (u : YMD) (h1 : 1 ≤ m) (h2 : m ≤ 12)
    (hu1 : 1 ≤ u.month) (hu2 : u.month ≤ 12) (hud : 1 ≤ u.day)
    (hle : monthIndex y m ≤ monthIndex u.year u.month) :
    dateLE ⟨y, m, 1⟩ u = true := by
  unfold monthIndex at hle
  simp only [dateLE, Bool.or_eq_true, Bool.and_eq_true, decide_eq_true_eq, beq_iff_eq]
  omega

/-- The fuel-bounded `rrule` iteration, with exactly adequate fuel, produces
the month-firsts in increasing month order. -/
theorem monthsFromAux_spec (u : YMD) (hu1 : 1 ≤ u.month) (hu2 : u.month ≤ 12)
    (hud : 1 ≤ u.day) :
    ∀ (fuel y m : Nat), 1 ≤ m → m ≤ 12 →
      monthIndex y m ≤ monthIndex u.year u.month →
      fuel = monthIndex u.year u.month + 1 - monthIndex y m →
      monthsFromAux u fuel y m =
        (List.range fuel).map (fun i => monthOfIndex (monthIndex y m + i)) := by
  intro fuel
  induction fuel with
  | zero => intro y m _ _ _ _; rfl
  | succ f ih =>
      intro y m h1 h2 hle hfuel
      have hcond := dateLE_first_of_month y m u h1 h2 hu1 hu2 hud hle
      rw [monthsFromAux, if_pos hcond]
      obtain ⟨hstep, hn1, hn2⟩ := nextMonth_monthIndex y m h1 h2
      rw [List.range_succ_eq_map, List.map_cons, List.map_map]
      have hhead : monthOfIndex (monthIndex y m + 0) = (y, m) := by
        rw [Nat.add_zero]; exact monthOfIndex_monthIndex y m h1 h2
      rw [hhead]
      by_cases heq : monthIndex y m = monthIndex u.year u.month
      · have hf : f = 0 := by omega
        subst hf
        simp only [List.range_zero, List.map_nil]
        rfl
      · have hlt : monthIndex y m < monthIndex u.year u.month := lt_of_le_of_ne hle heq
        rw [ih (nextMonth y m).1 (nextMonth y m).2 hn1 hn2 (by omega) (by omega)]
        have hfun : (fun i => monthOfIndex
              (monthIndex (nextMonth y m).1 (nextMonth y m).2 + i)) =
            ((fun i => monthOfIndex (monthIndex y m + i)) ∘ Nat.succ) := by
          funext i
          simp only [Function.comp_apply]
          rw [hstep]
          congr 1
          omega
        rw [hfun]

/-- The month anchors of `get_park_information` for a range whose start month
is at most its end month: exactly the month-firsts from the start month
through the end month, in chronological order. -/
theorem monthsFrom_spec (y m : Nat) (u : YMD) (h1 : 1 ≤ m) (h2 : m ≤ 12)
    (hu1 : 1 ≤ u.month) (hu2 : u.month ≤ 12) (hud : 1 ≤ u.day)
    (hle : monthIndex y m ≤ monthIndex u.year u.month) :
    monthsFrom y m u =
      (List.range (monthIndex u.year u.month + 1 - monthIndex y m)).map
        (fun i => monthOfIndex (monthIndex y m + i)) :=
  monthsFromAux_spec u hu1 hu2 hud _ y m h1 h2 hle rfl

/-! ## Lemmas about the normalizer -/

/-- Lookup after `addTo`: the entry of `k` gains `v` (created if absent);
other entries are untouched. -/
theorem lookupSite_addTo (data : List (String × List YMD)) (k : String) (v : List YMD) :
    ∀ c, lookupSite (addTo data k v) c =
      if c = k then some ((lookupSite data k).getD [] ++ v) else lookupSite data c := by
  induction data with
  | nil => intro c; by_cases hc : c = k <;> simp [addTo, lookupSite, hc]
  | cons kv rest ih =>
      intro c
      obtain ⟨k', v'⟩ := kv
      by_cases hk : k' = k
      · subst hk
        by_cases hc : c = k' <;> simp [addTo, lookupSite, hc]
      · by_cases hc : c = k'
        · subst hc
          simp [addTo, hk, lookupSite, Ne.symm hk]
        · have hk2 : ¬ k = k' := fun h => hk h.symm
          simp [addTo, hk, lookupSite, hc, ih c, hk2]

/-- Membership in the mapping after processing one site entry. -/
theorem mem_lookup_stepSite (campsiteType : Option String) (data : List (String × List YMD))
    (p : String × CampsiteData) (c : String) (d : YMD) :
    d ∈ (lookupSite (stepSite campsiteType data p) c).getD [] ↔
      d ∈ (lookupSite data c).getD [] ∨
        (p.1 = c ∧ d ∈ availableOf p.2 campsiteType) := by
  unfold stepSite
  by_cases hav : (availableOf p.2 campsiteType).isEmpty
  · rw [if_pos hav]
    rw [List.isEmpty_iff] at hav
    simp [hav]
  · rw [if_neg hav, lookupSite_addTo]
    by_cases hc : c = p.1
    · subst hc
      simp only [eq_self_iff_true, if_true, Option.getD_some, List.mem_append]
      tauto
    · rw [if_neg hc]
      have : ¬ p.1 = c := fun h => hc h.symm
      tauto

/-- Membership in the mapping after folding one month record. -/
theorem mem_lookup_foldMonth (campsiteType : Option String) (monthData : MonthRecord)
    (c : String) (d : YMD) :
    ∀ data, d ∈ (lookupSite (monthData.foldl (stepSite campsiteType) data) c).getD [] ↔
      d ∈ (lookupSite data c).getD [] ∨
        ∃ p ∈ monthData, p.1 = c ∧ d ∈ availableOf p.2 campsiteType := by
  induction monthData with
  | nil => simp
  | cons q qs ih =>
      intro data
      rw [List.foldl_cons, ih, mem_lookup_stepSite]
      simp only [List.mem_cons]
      constructor
      · rintro ((h | h) | ⟨p, hp, h⟩)
        · exact Or.inl h
        · exact Or.inr ⟨q, Or.inl rfl, h⟩
        · exact Or.inr ⟨p, Or.inr hp, h⟩
      · rintro (h | ⟨p, (rfl | hp), h⟩)
        · exact Or.inl (Or.inl h)
        · exact Or.inl (Or.inr h)
        · exact Or.inr ⟨p, hp, h⟩

/-- Membership in the fully collapsed mapping, relative to an initial
accumulator. -/
theorem mem_lookup_foldApi (campsiteType : Option String) (apiData : List MonthRecord)
    (c : String) (d : YMD) :
    ∀ data, d ∈ (lookupSite
        (apiData.foldl (fun data monthData => monthData.foldl (stepSite campsiteType) data)
          data) c).getD [] ↔
      d ∈ (lookupSite data c).getD [] ∨
        ∃ m ∈ apiData, ∃ p ∈ m, p.1 = c ∧ d ∈ availableOf p.2 campsiteType := by
  induction apiData with
  | nil => simp
  | cons monthData rest ih =>
      intro data
      rw [List.foldl_cons, ih, mem_lookup_foldMonth]
      simp only [List.mem_cons]
      constructor
      · rintro ((h | ⟨p, hp, h⟩) | ⟨m, hm, h⟩)
        · exact Or.inl h
        · exact Or.inr ⟨monthData, Or.inl rfl, p, hp, h⟩
        · exact Or.inr ⟨m, Or.inr hm, h⟩
      · rintro (h | ⟨m, (rfl | hm), h⟩)
        · exact Or.inl (Or.inl h)
        · exact Or.inl (Or.inr h)
        · exact Or.inr ⟨m, hm, h⟩

/-- The dates collected for one site in one month record: exactly the dates
whose status is the literal `"Available"`, provided the filter is unset,
empty (falsy in Python), or equal to the record's `campsite_type`. -/
theorem mem_availableOf (cd : CampsiteData) (campsiteType : Option String) (d : YMD) :
    d ∈ availableOf cd campsiteType ↔
      (d, "Available") ∈ cd.availabilities ∧
        (campsiteType = none ∨ campsiteType = some "" ∨
          campsiteType = some cd.campsite_type) := by
  unfold availableOf
  simp only [List.mem_map, List.mem_filter]
  constructor
  · rintro ⟨⟨d', s⟩, ⟨hmem, hkeep⟩, rfl⟩
    unfold keepDate at hkeep
    cases campsiteType with
    | none =>
        simp only [Bool.and_eq_true, beq_iff_eq] at hkeep
        obtain ⟨hs, -⟩ := hkeep
        subst hs
        exact ⟨hmem, Or.inl rfl⟩
    | some ct =>
        simp only [Bool.and_eq_true, beq_iff_eq, Bool.not_eq_true',
          Bool.and_eq_false_iff, Bool.not_eq_false'] at hkeep
        obtain ⟨hs, hct⟩ := hkeep
        subst hs
        refine ⟨hmem, ?_⟩
        rcases hct with h | h
        · exact Or.inr (Or.inl (by simp [h]))
        · exact Or.inr (Or.inr (by simp [h]))
  · rintro ⟨hmem, hok⟩
    refine ⟨(d, "Available"), ⟨hmem, ?_⟩, rfl⟩
    unfold keepDate
    rcases hok with rfl | rfl | rfl <;> simp

/-- Every value stored by `addTo` is non-empty when the added list and all
existing values are non-empty. -/
theorem addTo_values_ne_nil (data : List (String × List YMD)) (k : String) (v : List YMD)
    (hdata : ∀ p ∈ data, p.2 ≠ []) (hv : v ≠ []) :
    ∀ p ∈ addTo data k v, p.2 ≠ [] := by
  induction data with
  | nil =>
      intro p hp
      simp only [addTo, List.mem_singleton] at hp
      subst hp
      exact hv
  | cons kv rest ih =>
      intro p hp
      obtain ⟨k', v'⟩ := kv
      by_cases hk : k' = k
      · subst hk
        simp only [addTo, eq_self_iff_true, if_true, List.mem_cons] at hp
        rcases hp with hp | hp
        · rw [hp]
          intro h
          have h2 : v' ++ v = [] := h
          exact hv (List.append_eq_nil.mp h2).2
        · exact hdata p (List.mem_cons_of_mem _ hp)
      · simp only [addTo, if_neg hk, List.mem_cons] at hp
        rcases hp with rfl | hp
        · exact hdata (k', v') (List.mem_cons_self _ _)
        · exact ih (fun q hq => hdata q (List.mem_cons_of_mem _ hq)) p hp

/-- All values of the collapsed mapping are non-empty lists. -/
theorem collapseMonths_values_ne_nil (campsiteType : Option String)
    (apiData : List MonthRecord) :
    ∀ p ∈ collapseMonths apiData campsiteType, p.2 ≠ [] := by
  unfold collapseMonths
  have hmonth : ∀ (monthData : MonthRecord) (data : List (String × List YMD)),
      (∀ p ∈ data, p.2 ≠ []) →
      ∀ p ∈ monthData.foldl (stepSite campsiteType) data, p.2 ≠ [] := by
    intro monthData
    induction monthData with
    | nil => intro data h; simpa using h
    | cons q qs ih =>
        intro data h
        rw [List.foldl_cons]
        refine ih _ ?_
        unfold stepSite
        by_cases hav : (availableOf q.2 campsiteType).isEmpty
        · rw [if_pos hav]; exact h
        · rw [if_neg hav]
          exact addTo_values_ne_nil data q.1 _ h
            (fun hnil => hav (by simp [hnil]))
  have hapi : ∀ (api : List MonthRecord) (data : List (String × List YMD)),
      (∀ p ∈ data, p.2 ≠ []) →
      ∀ p ∈ api.foldl (fun data monthData => monthData.foldl (stepSite campsiteType) data)
          data, p.2 ≠ [] := by
    intro api
    induction api with
    | nil => intro data h; simpa using h
    | cons m rest ih =>
        intro data h
        rw [List.foldl_cons]
        exact ih _ (hmonth m data h)
  exact hapi apiData [] (by simp)

/-- A successful lookup returns a value stored in the association list. -/
theorem lookupSite_mem (data : List (String × List YMD)) (c : String) (l : List YMD) :
    lookupSite data c = some l → ∃ k, (k, l) ∈ data := by
  induction data with
  | nil => intro h; simp [lookupSite] at h
  | cons kv rest ih =>
      intro h
      obtain ⟨k', v'⟩ := kv
      by_cases hc : c = k'
      · simp only [lookupSite, hc, eq_self_iff_true, if_true, Option.some.injEq] at h
        exact ⟨k', by simp [← h]⟩
      · simp only [lookupSite, if_neg hc] at h
        obtain ⟨k, hk⟩ := ih h
        exact ⟨k, List.mem_cons_of_mem _ hk⟩

/-! ## Lemmas about the run detector -/

/-- Unfolding a non-empty arithmetic progression. -/
theorem runFrom_succ_cons (a : Int) (n : Nat) :
    runFrom a (n + 1) = a :: runFrom (a + 1) n := by
  unfold runFrom
  rw [List.range_succ_eq_map, List.map_cons, List.map_map]
  have hf : ((fun (i : Nat) => a + (i : Int)) ∘ Nat.succ) =
      (fun (i : Nat) => (a + 1) + (i : Int)) := by
    funext i
    simp only [Function.comp_apply]
    push_cast
    ring
  rw [hf]
  norm_num

/-- Membership in an arithmetic progression. -/
theorem mem_runFrom (b a : Int) (n : Nat) :
    b ∈ runFrom a n ↔ ∃ j : Nat, j < n ∧ b = a + (j : Int) := by
  unfold runFrom
  simp only [List.mem_map, List.mem_range]
  constructor
  · rintro ⟨j, hj, rfl⟩; exact ⟨j, hj, rfl⟩
  · rintro ⟨j, hj, rfl⟩; exact ⟨j, hj, rfl⟩

/-- The head of a non-empty arithmetic progression. -/
theorem head?_runFrom (a : Int) (n : Nat) (h : n ≠ 0) :
    (runFrom a n).head? = some a := by
  cases n with
  | zero => exact absurd rfl h
  | succ k => rw [runFrom_succ_cons]; rfl

/-- `splitRuns` of a non-empty list is non-empty, and its first group starts
with the first element of the list. -/
theorem splitRuns_cons_head : ∀ (x : Int) (xs : List Int),
    ∃ g gs, splitRuns (x :: xs) = g :: gs ∧ g.head? = some x
  | x, [] => ⟨[x], [], rfl, rfl⟩
  | x, y :: xs => by
      obtain ⟨g, gs, heq, hh⟩ := splitRuns_cons_head y xs
      by_cases hy : y = x + 1
      · exact ⟨x :: g, gs, by simp only [splitRuns, heq, if_pos hy], rfl⟩
      · exact ⟨[x], g :: gs, by simp only [splitRuns, heq, if_neg hy], rfl⟩

/-- Every group of `splitRuns l` is an arithmetic progression of step 1 whose
elements all belong to `l`. -/
theorem splitRuns_shape : ∀ (l : List Int) (g : List Int), g ∈ splitRuns l →
    (∀ b ∈ g, b ∈ l) ∧ ∃ a, g = runFrom a g.length
  | [], g, hg => by simp [splitRuns] at hg
  | [x], g, hg => by
      simp only [splitRuns, List.mem_singleton] at hg
      subst hg
      refine ⟨by simp, ⟨x, ?_⟩⟩
      rw [List.length_singleton, runFrom_succ_cons]
      rfl
  | x :: y :: xs, g, hg => by
      have IH := splitRuns_shape (y :: xs)
      obtain ⟨g0, gs0, heq, hhead⟩ := splitRuns_cons_head y xs
      simp only [splitRuns, heq] at hg
      by_cases hy : y = x + 1
      · rw [if_pos hy] at hg
        rcases List.mem_cons.mp hg with hgeq | hgmem
        · -- g is the first group x :: g0, where g0 is the first group of y :: xs
          have hg0 : g0 ∈ splitRuns (y :: xs) := by
            rw [heq]; exact List.mem_cons_self _ _
          obtain ⟨hsub0, a, hshape0⟩ := IH g0 hg0
          have hlen0 : g0.length ≠ 0 := by
            intro hl
            rw [List.length_eq_zero.mp hl] at hhead
            exact Option.noConfusion hhead
          have hay : a = y := by
            have := head?_runFrom a g0.length hlen0
            rw [← hshape0, hhead] at this
            exact (Option.some.injEq .. ▸ this).symm
          subst hgeq
          constructor
          · intro b hb
            rcases List.mem_cons.mp hb with rfl | hb0
            · exact List.mem_cons_self _ _
            · exact List.mem_cons_of_mem _ (hsub0 b hb0)
          · refine ⟨x, ?_⟩
            rw [List.length_cons, runFrom_succ_cons, ← hy, ← hay, ← hshape0]
        · have hgmem' : g ∈ splitRuns (y :: xs) := by
            rw [heq]; exact List.mem_cons_of_mem _ hgmem
          obtain ⟨hsub, hsh⟩ := IH g hgmem'
          exact ⟨fun b hb => List.mem_cons_of_mem _ (hsub b hb), hsh⟩
      · rw [if_neg hy] at hg
        rcases List.mem_cons.mp hg with hgeq | hgmem
        · subst hgeq
          refine ⟨by simp, ⟨x, ?_⟩⟩
          rw [List.length_singleton, runFrom_succ_cons]
          rfl
        · have hgmem' : g ∈ splitRuns (y :: xs) := by rw [heq]; exact hgmem
          obtain ⟨hsub, hsh⟩ := IH g hgmem'
          exact ⟨fun b hb => List.mem_cons_of_mem _ (hsub b hb), hsh⟩

/-- `List.foldl max` over a list attains its value at the seed or at a list
element. -/
theorem foldl_max_mem : ∀ (ns : List Nat) (n : Nat),
    List.foldl max n ns = n ∨ List.foldl max n ns ∈ ns
  | [], n => Or.inl rfl
  | k :: ks, n => by
      rcases foldl_max_mem ks (max n k) with h | h
      · rw [List.foldl_cons, h]
        rcases Nat.le_total n k with hnk | hkn
        · rw [Nat.max_eq_right hnk]
          exact Or.inr (List.mem_cons_self _ _)
        · rw [Nat.max_eq_left hkn]
          exact Or.inl rfl
      · rw [List.foldl_cons]
        exact Or.inr (List.mem_cons_of_mem _ h)

/-- A `some true` verdict of `consecutive_nights` exhibits a group of at
least `nights` consecutive ordinals. -/
theorem consecutiveNights_true_run (available : List Int) (nights : Int)
    (h : consecutiveNights available nights = some true) :
    ∃ g ∈ splitRuns available, nights ≤ (g.length : Int) := by
  unfold consecutiveNights at h
  cases hsr : (splitRuns available).map List.length with
  | nil => rw [hsr] at h; exact Option.noConfusion h
  | cons n ns =>
      rw [hsr] at h
      have hle : nights ≤ ((List.foldl max n ns : Nat) : Int) := by
        have := Option.some.injEq .. ▸ h
        exact of_decide_eq_true this
      have hmem : List.foldl max n ns ∈ n :: ns := by
        rcases foldl_max_mem ns n with h' | h'
        · rw [h']; exact List.mem_cons_self _ _
        · exact List.mem_cons_of_mem _ h'
      rw [← hsr] at hmem
      obtain ⟨g, hg, hglen⟩ := List.mem_map.mp hmem
      exact ⟨g, hg, by rw [hglen]; exact hle⟩

/-- Bounds of the window ordinals. -/
theorem mem_windowOrds (d endO numDays : Int) :
    d ∈ windowOrds endO numDays ↔
      ∃ i : Nat, i < numDays.toNat ∧ d = endO - ((i : Int) + 1) := by
  unfold windowOrds
  simp only [List.mem_map, List.mem_range]
  constructor
  · rintro ⟨i, hi, rfl⟩; exact ⟨i, hi, rfl⟩
  · rintro ⟨i, hi, rfl⟩; exact ⟨i, hi, rfl⟩

/-- If a site qualifies with the night count equal to the full window length,
then every night of the window is among the site's available dates. -/
theorem siteQualifies_full_window_covers (avail : List Int) (endO numDays : Int)
    (h : siteQualifies avail (windowOrds endO numDays) numDays = some true) :
    ∀ d ∈ windowOrds endO numDays, d ∈ avail := by
  unfold siteQualifies at h
  set W := windowOrds endO numDays with hW
  set desired := avail.filter (fun d => decide (d ∈ W)) with hdes
  by_cases hemp : desired.isEmpty
  · rw [if_pos hemp] at h
    exact absurd (Option.some.injEq .. ▸ h) Bool.false_ne_true
  · rw [if_neg hemp] at h
    obtain ⟨g, hg, hglen⟩ := consecutiveNights_true_run desired numDays h
    obtain ⟨hsub, a, hshape⟩ := splitRuns_shape desired g hg
    -- desired is contained in both avail and the window
    have hdes_avail : ∀ b ∈ desired, b ∈ avail := by
      intro b hb
      exact (List.mem_filter.mp hb).1
    have hdes_win : ∀ b ∈ desired, b ∈ W := by
      intro b hb
      have := (List.mem_filter.mp hb).2
      exact of_decide_eq_true this
    -- the window is non-empty, so numDays ≥ 1 and numDays.toNat = numDays
    have hdesne : desired ≠ [] := by
      intro hnil
      rw [hnil] at hemp
      exact hemp rfl
    have hwne : ∃ w, w ∈ W := by
      obtain ⟨b, hb⟩ := List.exists_mem_of_ne_nil desired hdesne
      exact ⟨b, hdes_win b hb⟩
    have hT1 : 1 ≤ numDays.toNat := by
      obtain ⟨w, hw⟩ := hwne
      obtain ⟨i, hi, -⟩ := (mem_windowOrds w endO numDays).mp hw
      omega
    have hTeq : (numDays.toNat : Int) = numDays := by
      rcases Int.le_total 0 numDays with h0 | h0
      · exact Int.toNat_of_nonneg h0
      · omega
    -- every element of the group lies in the window
    have hgwin : ∀ j : Nat, j < g.length → a + (j : Int) ∈ W := by
      intro j hj
      refine hdes_win _ (hsub _ ?_)
      rw [hshape]
      exact (mem_runFrom _ a g.length).mpr ⟨j, hj, rfl⟩
    have hwbound : ∀ w ∈ W, endO - numDays ≤ w ∧ w ≤ endO - 1 := by
      intro w hw
      obtain ⟨i, hi, rfl⟩ := (mem_windowOrds w endO numDays).mp hw
      omega
    -- the group has length ≥ numDays inside a window of numDays consecutive
    -- ordinals, so it is the whole window
    have hL1 : 1 ≤ g.length := by
      have := hglen
      omega
    have hlow : endO - numDays ≤ a := by
      have := (hwbound _ (hgwin 0 (by omega))).1
      simpa using this
    have hhigh : a + ((g.length - 1 : Nat) : Int) ≤ endO - 1 :=
      (hwbound _ (hgwin (g.length - 1) (by omega))).2
    have hLT : (g.length : Int) = numDays := by
      have hcast : ((g.length - 1 : Nat) : Int) = (g.length : Int) - 1 := by
        omega
      rw [hcast] at hhigh
      omega
    have ha : a = endO - numDays := by
      have hcast : ((g.length - 1 : Nat) : Int) = (g.length : Int) - 1 := by
        omega
      rw [hcast, hLT] at hhigh
      omega
    -- conclude: every window night is in the group, hence available
    intro d hd
    obtain ⟨i, hi, rfl⟩ := (mem_windowOrds d endO numDays).mp hd
    have hj : (numDays.toNat - 1 - i : Nat) < g.length := by
      have : (g.length : Int) = numDays := hLT
      omega
    refine hdes_avail _ (hsub _ ?_)
    rw [hshape]
    refine (mem_runFrom _ a g.length).mpr ⟨numDays.toNat - 1 - i, hj, ?_⟩
    have hcast : ((numDays.toNat - 1 - i : Nat) : Int) = numDays - 1 - (i : Int) := by
      omega
    rw [ha, hcast]
    ring

/-! ## Lemmas about the polling loop and the event traces -/

/-- A single park's fetch loop never sleeps. -/
theorem sleep_not_mem_fetchMonths (env : ApiTick) (p : Nat) :
    ∀ (anchors : List (Nat × Nat)) (k : Nat),
      Event.sleep k ∉ (fetchMonths env p anchors).1
  | [], k => by simp [fetchMonths]
  | a :: as, k => by
      simp only [fetchMonths]
      cases sendRequest (env.monthResp p a) with
      | error e => simp
      | ok md =>
          simp only [List.mem_cons]
          rintro (h | h)
          · exact Event.noConfusion h
          · exact sleep_not_mem_fetchMonths env p as k h

/-- A park-information request never sleeps. -/
theorem sleep_not_mem_getParkInformation (env : ApiTick) (p : Nat) (startD endD : YMD)
    (ct : Option String) (k : Nat) :
    Event.sleep k ∉ (getParkInformation env p startD endD ct).1 := by
  unfold getParkInformation
  cases hf : fetchMonths env p (monthsFrom startD.year startD.month endD) with
  | mk evs r =>
      cases r with
      | error e =>
          intro h
          exact sleep_not_mem_fetchMonths env p _ k (by rw [hf]; exact h)
      | ok api =>
          intro h
          exact sleep_not_mem_fetchMonths env p _ k (by rw [hf]; exact h)

/-- The park loop never sleeps. -/
theorem sleep_not_mem_evalParks (env : ApiTick) (startD endD : YMD) (ct : Option String)
    (n : Option Int) :
    ∀ (parks : List Nat) (avail : Bool) (last : Option LastVars) (k : Nat),
      Event.sleep k ∉ (evalParks env startD endD ct n parks avail last).1
  | [], avail, last, k => by simp [evalParks]
  | p :: ps, avail, last, k => by
      simp only [evalParks]
      cases hpi : getParkInformation env p startD endD ct with
      | mk evs r =>
          cases r with
          | error e =>
              intro h
              exact sleep_not_mem_getParkInformation env p startD endD ct k
                (by rw [hpi]; exact h)
          | ok info =>
              cases sendRequest (env.nameResp p) with
              | error e =>
                  intro h
                  rcases List.mem_append.mp h with h | h
                  · exact sleep_not_mem_getParkInformation env p startD endD ct k
                      (by rw [hpi]; exact h)
                  · exact Event.noConfusion (List.mem_singleton.mp h)
              | ok name =>
                  intro h
                  rcases List.mem_append.mp h with h | h
                  · rcases List.mem_append.mp h with h | h
                    · exact sleep_not_mem_getParkInformation env p startD endD ct k
                        (by rw [hpi]; exact h)
                    · rcases List.mem_cons.mp h with h | h
                      · exact Event.noConfusion h
                      · exact Event.noConfusion (List.mem_singleton.mp h)
                  · exact sleep_not_mem_evalParks env startD endD ct n ps _ _ k h

/-- A full evaluation pass never sleeps: `time.sleep` happens only in the
polling loop between passes. -/
theorem sleep_not_mem_getAvailabilities (env : ApiTick) (startD endD : YMD)
    (parks : List Nat) (ct : Option String) (n : Option Int) (k : Nat) :
    Event.sleep k ∉ (getAvailabilities env startD endD parks ct n).1 := by
  unfold getAvailabilities
  cases hev : evalParks env startD endD ct n parks false none with
  | mk evs r =>
      have hevs : ∀ h : Event.sleep k ∈ evs, False := by
        intro h
        exact sleep_not_mem_evalParks env startD endD ct n parks false none k
          (by rw [hev]; exact h)
      cases r with
      | error e => exact fun h => hevs h
      | ok pr =>
          obtain ⟨avail, last⟩ := pr
          cases avail with
          | false => exact fun h => hevs h
          | true =>
              cases last with
              | none => exact fun h => hevs h
              | some lv =>
                  intro h
                  rcases List.mem_append.mp h with h | h
                  · exact hevs h
                  · exact Event.noConfusion (List.mem_singleton.mp h)

/-- Splitting a `flatMap` over `List.range (t + 1)` into the head call and
the shifted rest. -/
theorem flatMap_range_succ {α : Type} (f : Nat → List α) (t : Nat) :
    (List.range (t + 1)).flatMap f = f 0 ++ (List.range t).flatMap (fun s => f (s + 1)) := by
  rw [List.range_succ_eq_map, List.flatMap_cons]
  congr 1
  induction t with
  | zero => rfl
  | succ t ih =>
      rw [List.range_succ, List.map_append, List.flatMap_append, List.flatMap_append, ih]
      rfl

/-- Shifting the tick origin of the polling loop into the environment. -/
theorem runLoop_shift (startD endD : YMD) (parks : List Nat) (ct : Option String)
    (n : Option Int) (env : Nat → ApiTick) :
    ∀ (fuel tick : Nat),
      runLoop env startD endD parks ct n fuel (tick + 1) =
        runLoop (fun u => env (u + 1)) startD endD parks ct n fuel tick := by
  intro fuel
  induction fuel with
  | zero => intro tick; rfl
  | succ f ihf =>
      intro tick
      simp only [runLoop]
      cases hga : getAvailabilities (env (tick + 1)) startD endD parks ct n with
      | mk evs r =>
          cases r with
          | error e => rfl
          | ok o =>
              cases o with
              | some s => rfl
              | none =>
                  show (evs ++ Event.sleep 60 ::
                      (runLoop env startD endD parks ct n f (tick + 1 + 1)).1,
                    (runLoop env startD endD parks ct n f (tick + 1 + 1)).2) =
                    (evs ++ Event.sleep 60 ::
                      (runLoop (fun u => env (u + 1)) startD endD parks ct n f (tick + 1)).1,
                    (runLoop (fun u => env (u + 1)) startD endD parks ct n f (tick + 1)).2)
                  rw [ihf (tick + 1)]

/-! ## Claim theorems -/

/-- **C1.** The claim states that the rendered outcome summary of an
evaluation pass contains one line per evaluated park.  The code violates
this: `get_availabilities` builds the returned summary string from the loop
variables left over from the *last* iteration of the park loop only.
Evaluating the program on a pass over parks `[1, 2]` in the window
2024-06-01..2024-06-04 — where park 1 has a qualifying site (its per-park log
line carries the success glyph, second conjunct) and park 2 has none — the
returned summary consists of a single line describing only park 2, with the
failure glyph, and no line for park 1. -/
theorem getAvailabilities_summary_last_park_only :
    (getAvailabilities envTwoParks ⟨2024, 6, 1⟩ ⟨2024, 6, 4⟩ [1, 2] none none).2 =
      Except.ok (some ("❌ Two (2): 0 site(s) available out of 0 site(s)" ++
        "\nThere are campsites available from 2024-06-01 to 2024-06-04!!!")) ∧
    Event.logLine "🏕 One (1): 1 site(s) available out of 1 site(s)" ∈
      (getAvailabilities envTwoParks ⟨2024, 6, 1⟩ ⟨2024, 6, 4⟩ [1, 2] none none).1 :=
  ⟨rfl, by decide⟩

/-- **C2.** The claim states that `consecutive_nights` sorts the intersected
ordinals, so its result does not depend on the order in which the available
dates are supplied.  The code omits the sort: `groupby` scans the list in
supplied order.  On the window 2024-06-01..2024-06-06 with nights 3, the
available set `{06-01, 06-02, 06-03}` supplied as `[06-02, 06-01, 06-03]`
is rejected (first conjunct) although the same set supplied in chronological
order is accepted (second conjunct) — so the result is order-dependent and,
on the unsorted supply, contradicts both the claim and the function's own
docstring ("whether there are `nights` worth of consecutive nights").
The claim's concrete instance does hold for chronologically supplied dates
(third and fourth conjuncts). -/
theorem consecutiveNights_order_dependent :
    siteQualifies ([⟨2024, 6, 2⟩, ⟨2024, 6, 1⟩, ⟨2024, 6, 3⟩].map YMD.toOrdinal)
        (windowOrds (YMD.toOrdinal ⟨2024, 6, 6⟩) 5) 3 = some false ∧
    siteQualifies ([⟨2024, 6, 1⟩, ⟨2024, 6, 2⟩, ⟨2024, 6, 3⟩].map YMD.toOrdinal)
        (windowOrds (YMD.toOrdinal ⟨2024, 6, 6⟩) 5) 3 = some true ∧
    siteQualifies ([⟨2024, 6, 1⟩, ⟨2024, 6, 2⟩, ⟨2024, 6, 3⟩, ⟨2024, 6, 5⟩].map YMD.toOrdinal)
        (windowOrds (YMD.toOrdinal ⟨2024, 6, 6⟩) 5) 3 = some true ∧
    siteQualifies ([⟨2024, 6, 1⟩, ⟨2024, 6, 2⟩, ⟨2024, 6, 3⟩, ⟨2024, 6, 5⟩].map YMD.toOrdinal)
        (windowOrds (YMD.toOrdinal ⟨2024, 6, 6⟩) 5) 4 = some false := by
  refine ⟨by decide, by decide, by decide, by decide⟩

/-- **C3, counterexample.** The claim states that an invocation with an
out-of-range night count is rejected before any network activity, with no
availability fetch and no park-metadata request issued.  In the code a night
count of `0` (outside `range(1, num_days + 1)`) is not rejected at all: the
evaluation pass proceeds, issuing both the availability fetch and the
metadata request, and merely defaults the night count afterwards. -/
theorem invalid_nights_still_fetches :
    Event.fetchAvail 1 (2024, 6) ∈
      (getAvailabilities envTwoParks ⟨2024, 6, 1⟩ ⟨2024, 6, 4⟩ [1] none (some 0)).1 ∧
    Event.fetchMeta 1 ∈
      (getAvailabilities envTwoParks ⟨2024, 6, 1⟩ ⟨2024, 6, 4⟩ [1] none (some 0)).1 := by
  refine ⟨by decide, by decide⟩

/-- **C4, amended.** Membership in the normalized output of the collapse
step of `get_park_information`: a site is mapped to a date iff some supplied
month record lists that site with that date's status string exactly
`"Available"` and the site-type filter is unset, **empty** (Python's
truthiness makes the empty-string filter inert; this is the only amendment to
the claim as written), or exactly equal (case-sensitively) to that record's
`campsite_type`; dates accumulate across all supplied months; and a site
whose date list would be empty is entirely absent from the mapping (a
successful lookup never returns an empty list). -/
theorem collapseMonths_membership_spec (apiData : List MonthRecord)
    (campsiteType : Option String) (cid : String) (d : YMD) :
    (d ∈ (lookupSite (collapseMonths apiData campsiteType) cid).getD [] ↔
      ∃ m ∈ apiData, ∃ p ∈ m, p.1 = cid ∧ (d, "Available") ∈ p.2.availabilities ∧
        (campsiteType = none ∨ campsiteType = some "" ∨
          campsiteType = some p.2.campsite_type)) ∧
    (∀ l, lookupSite (collapseMonths apiData campsiteType) cid = some l → l ≠ []) := by
  constructor
  · unfold collapseMonths
    rw [mem_lookup_foldApi]
    simp only [lookupSite, Option.getD_none, List.not_mem_nil, false_or]
    constructor
    · rintro ⟨m, hm, p, hp, hcid, hd⟩
      rw [mem_availableOf] at hd
      exact ⟨m, hm, p, hp, hcid, hd.1, hd.2⟩
    · rintro ⟨m, hm, p, hp, hcid, hmem, hok⟩
      exact ⟨m, hm, p, hp, hcid, (mem_availableOf p.2 campsiteType d).mpr ⟨hmem, hok⟩⟩
  · intro l hl
    obtain ⟨k, hk⟩ := lookupSite_mem _ _ _ hl
    exact collapseMonths_values_ne_nil campsiteType apiData (k, l) hk

/-- Witness for `collapseMonths_membership_spec`: on a concrete two-month
input it certifies a date present in the output through the right-hand side
of the characterization, and that the stored list is non-empty. -/
theorem collapseMonths_membership_spec_witness :
    ⟨2024, 7, 1⟩ ∈ (lookupSite (collapseMonths
        [[("s1", ⟨"STANDARD", [(⟨2024, 6, 30⟩, "Available")]⟩)],
         [("s1", ⟨"STANDARD", [(⟨2024, 7, 1⟩, "Available"), (⟨2024, 7, 2⟩, "Reserved")]⟩)]]
        none) "s1").getD [] ∧
    ([⟨2024, 6, 30⟩, ⟨2024, 7, 1⟩] : List YMD) ≠ [] :=
  ⟨(collapseMonths_membership_spec
      [[("s1", ⟨"STANDARD", [(⟨2024, 6, 30⟩, "Available")]⟩)],
       [("s1", ⟨"STANDARD", [(⟨2024, 7, 1⟩, "Available"), (⟨2024, 7, 2⟩, "Reserved")]⟩)]]
      none "s1" ⟨2024, 7, 1⟩).1.mpr (by decide),
   (collapseMonths_membership_spec
      [[("s1", ⟨"STANDARD", [(⟨2024, 6, 30⟩, "Available")]⟩)],
       [("s1", ⟨"STANDARD", [(⟨2024, 7, 1⟩, "Available"), (⟨2024, 7, 2⟩, "Reserved")]⟩)]]
      none "s1" ⟨2024, 7, 1⟩).2 _ (by decide)⟩

/-- **C4, counterexample.** The claim as written requires the filter
condition "filter unset OR site_type equals the filter, compared exactly".
With the filter set to the empty string (a set value different from the
site's type `"STANDARD"`), the code nevertheless keeps the site's dates,
because `campsite_type and ...` treats the empty string as unset: the date is
in the output (first conjunct) although the claim's condition rejects it
(second conjunct). -/
theorem collapseMonths_empty_filter_counterexample :
    ⟨2024, 6, 1⟩ ∈ (lookupSite (collapseMonths
        [[("s1", ⟨"STANDARD", [(⟨2024, 6, 1⟩, "Available")]⟩)]] (some "")) "s1").getD [] ∧
    ¬ availableBySpec [[("s1", ⟨"STANDARD", [(⟨2024, 6, 1⟩, "Available")]⟩)]]
        (some "") "s1" ⟨2024, 6, 1⟩ := by
  constructor
  · decide
  · unfold availableBySpec
    decide

/-- An out-of-range night count is handled exactly like an unset one: the
range check `nights not in range(1, num_days + 1)` replaces it by the full
window length. -/
theorem getNumAvailableSites_invalid_eq_none (parkInformation : List (String × List YMD))
    (startD endD : YMD) (k : Int)
    (h : ¬ (1 ≤ k ∧ k ≤ endD.toOrdinal - startD.toOrdinal)) :
    getNumAvailableSites parkInformation startD endD (some k) =
      getNumAvailableSites parkInformation startD endD none := by
  simp only [getNumAvailableSites, effectiveNights, if_neg h]

/-- The park loop is insensitive to replacing the night count by one that
yields the same per-park site counts. -/
theorem evalParks_congr_nights (env : ApiTick) (startD endD : YMD)
    (campsiteType : Option String) (n1 n2 : Option Int)
    (h : ∀ pi, getNumAvailableSites pi startD endD n1 =
      getNumAvailableSites pi startD endD n2) :
    ∀ parks avail last,
      evalParks env startD endD campsiteType n1 parks avail last =
        evalParks env startD endD campsiteType n2 parks avail last := by
  intro parks
  induction parks with
  | nil => intro avail last; rfl
  | cons p ps ih =>
      intro avail last
      simp only [evalParks]
      cases hpi : getParkInformation env p startD endD campsiteType with
      | mk evs r =>
          cases r with
          | error e => rfl
          | ok info =>
              cases hn : sendRequest (env.nameResp p) with
              | error e => rfl
              | ok name => simp [h info, ih]

/-- **C3, amended.** Invalid configurations are *not* rejected before
network activity.  An out-of-range night count is silently defaulted to the
full window length — the whole evaluation pass behaves exactly as with the
night count unset, network requests included — and an empty park list is not
rejected either: the pass issues no request and simply reports "no
availability", which the polling loop then retries.  (Unparseable dates never
reach this code: they are rejected by the argument-parsing layer, which is
outside the evaluator.) -/
theorem getAvailabilities_invalid_nights_defaulted (env : ApiTick) (startD endD : YMD)
    (parks : List Nat) (campsiteType : Option String) (k : Int)
    (h : ¬ (1 ≤ k ∧ k ≤ endD.toOrdinal - startD.toOrdinal)) :
    getAvailabilities env startD endD parks campsiteType (some k) =
      getAvailabilities env startD endD parks campsiteType none ∧
    getAvailabilities env startD endD [] campsiteType (some k) =
      ([], Except.ok none) := by
  constructor
  · unfold getAvailabilities
    rw [evalParks_congr_nights env startD endD campsiteType (some k) none
      (fun pi => getNumAvailableSites_invalid_eq_none pi startD endD k h)]
  · rfl

/-- Witness for `getAvailabilities_invalid_nights_defaulted`: the night count
`0` is outside `[1, 3]` for the window 2024-06-01..2024-06-04. -/
theorem getAvailabilities_invalid_nights_defaulted_witness :
    getAvailabilities envTwoParks ⟨2024, 6, 1⟩ ⟨2024, 6, 4⟩ [1, 2] none (some 0) =
      getAvailabilities envTwoParks ⟨2024, 6, 1⟩ ⟨2024, 6, 4⟩ [1, 2] none none ∧
    getAvailabilities envTwoParks ⟨2024, 6, 1⟩ ⟨2024, 6, 4⟩ [] none (some 0) =
      ([], Except.ok none) :=
  getAvailabilities_invalid_nights_defaulted envTwoParks ⟨2024, 6, 1⟩ ⟨2024, 6, 4⟩
    [1, 2] none 0 (by decide)

/-- `monthOfIndex` is injective (a linear month index determines the
`(year, month)` pair). -/
theorem monthOfIndex_injective : Function.Injective monthOfIndex := by
  intro a b h
  unfold monthOfIndex at h
  have h1 := congrArg Prod.fst h
  have h2 := congrArg Prod.snd h
  simp only at h1 h2
  omega

/-- **C7.** For any valid date range (canonical start/end dates with
`start ≤ end`), the month-anchor computation of `get_park_information`
returns exactly the first-of-month anchors from the month containing the
start date through the month containing the end date: the anchor list equals
the chronological sequence of consecutive months (first conjunct, which also
shows the result is independent of the start's day-of-month, since only
`start.year`/`start.month` enter), its length is exactly the number of
calendar months spanned (second conjunct; 1 for a single-month range), and
it has no duplicates (third conjunct). -/
theorem monthsFrom_anchor_contract (s u : YMD)
    (hs1 : 1 ≤ s.month) (hs2 : s.month ≤ 12) (hsd : 1 ≤ s.day)
    (hu1 : 1 ≤ u.month) (hu2 : u.month ≤ 12) (hud : 1 ≤ u.day)
    (hrange : dateLE s u = true) :
    monthsFrom s.year s.month u =
      (List.range (monthIndex u.year u.month + 1 - monthIndex s.year s.month)).map
        (fun i => monthOfIndex (monthIndex s.year s.month + i)) ∧
    (monthsFrom s.year s.month u).length =
      monthIndex u.year u.month + 1 - monthIndex s.year s.month ∧
    (monthsFrom s.year s.month u).Nodup := by
  have hle : monthIndex s.year s.month ≤ monthIndex u.year u.month := by
    simp only [dateLE, Bool.or_eq_true, Bool.and_eq_true, decide_eq_true_eq,
      beq_iff_eq] at hrange
    unfold monthIndex
    omega
  have hmain := monthsFrom_spec s.year s.month u hs1 hs2 hu1 hu2 hud hle
  refine ⟨hmain, ?_, ?_⟩
  · rw [hmain, List.length_map, List.length_range]
  · rw [hmain]
    refine (List.nodup_range _).map ?_
    intro a b hab
    have := monthOfIndex_injective hab
    omega

/-- Witness for `monthsFrom_anchor_contract`: the claim's concrete range
2024-01-20..2024-03-05 yields exactly the three anchors January, February and
March 2024, and a single-month range yields exactly one anchor. -/
theorem monthsFrom_anchor_contract_witness :
    monthsFrom 2024 1 ⟨2024, 3, 5⟩ = [(2024, 1), (2024, 2), (2024, 3)] ∧
    monthsFrom 2024 6 ⟨2024, 6, 20⟩ = [(2024, 6)] := by
  constructor
  · exact ((monthsFrom_anchor_contract ⟨2024, 1, 20⟩ ⟨2024, 3, 5⟩ (by decide) (by decide)
      (by decide) (by decide) (by decide) (by decide) (by decide)).1).trans (by decide)
  · exact ((monthsFrom_anchor_contract ⟨2024, 6, 1⟩ ⟨2024, 6, 20⟩ (by decide) (by decide)
      (by decide) (by decide) (by decide) (by decide) (by decide)).1).trans (by decide)

/-- **C5.** A site whose available-date list has empty intersection with the
requested window is classified as not qualifying, and no exception is raised
(`some false`, never `none`): Python's short-circuit
`desired_available and consecutive_nights(...)` guards the `max(...)` call
that would raise on an empty list. -/
theorem siteQualifies_empty_intersection_false (avail dates : List Int) (nights : Int)
    (h : avail.filter (fun d => decide (d ∈ dates)) = []) :
    siteQualifies avail dates nights = some false := by
  unfold siteQualifies
  simp [h]

/-- Witness for `siteQualifies_empty_intersection_false`: a concrete site
whose dates all fall outside the window. -/
theorem siteQualifies_empty_intersection_false_witness :
    siteQualifies [(5 : Int)] [(7 : Int), (8 : Int)] 2 = some false :=
  siteQualifies_empty_intersection_false [(5 : Int)] [(7 : Int), (8 : Int)] 2 (by decide)

/-- **C6.** When the nights argument is unset (`none`) or outside
`[1, number of nights in the window]`, `get_num_available_sites` behaves
exactly as if the night count were the full window length
`(end_date - start_date).days` (first conjunct), and with that night count a
site can only qualify by being open on every night of the window (second
conjunct). -/
theorem getNumAvailableSites_nights_default (parkInformation : List (String × List YMD))
    (startD endD : YMD) (nights : Option Int)
    (h : nights = none ∨ ∃ k, nights = some k ∧
      ¬ (1 ≤ k ∧ k ≤ endD.toOrdinal - startD.toOrdinal)) :
    getNumAvailableSites parkInformation startD endD nights =
      getNumAvailableSites parkInformation startD endD
        (some (endD.toOrdinal - startD.toOrdinal)) ∧
    ∀ avail : List Int,
      siteQualifies avail (windowOrds endD.toOrdinal (endD.toOrdinal - startD.toOrdinal))
          (endD.toOrdinal - startD.toOrdinal) = some true →
      ∀ d ∈ windowOrds endD.toOrdinal (endD.toOrdinal - startD.toOrdinal), d ∈ avail := by
  constructor
  · rcases h with rfl | ⟨k, rfl, hk⟩
    · simp [getNumAvailableSites, effectiveNights, ite_self]
    · simp [getNumAvailableSites, effectiveNights, if_neg hk, ite_self]
  · intro avail hq
    exact siteQualifies_full_window_covers avail endD.toOrdinal
      (endD.toOrdinal - startD.toOrdinal) hq

/-- Witness for `getNumAvailableSites_nights_default`: with nights unset on
the three-night window 2024-06-01..2024-06-04, the count equals the
`nights = 3` count, and the fully open site is indeed open on the first
window night. -/
theorem getNumAvailableSites_nights_default_witness :
    getNumAvailableSites [("s1", [⟨2024, 6, 1⟩, ⟨2024, 6, 2⟩, ⟨2024, 6, 3⟩])]
        ⟨2024, 6, 1⟩ ⟨2024, 6, 4⟩ none =
      getNumAvailableSites [("s1", [⟨2024, 6, 1⟩, ⟨2024, 6, 2⟩, ⟨2024, 6, 3⟩])]
        ⟨2024, 6, 1⟩ ⟨2024, 6, 4⟩
        (some ((⟨2024, 6, 4⟩ : YMD).toOrdinal - (⟨2024, 6, 1⟩ : YMD).toOrdinal)) ∧
    YMD.toOrdinal ⟨2024, 6, 1⟩ ∈
      ([⟨2024, 6, 1⟩, ⟨2024, 6, 2⟩, ⟨2024, 6, 3⟩] : List YMD).map YMD.toOrdinal :=
  ⟨(getNumAvailableSites_nights_default
      [("s1", [⟨2024, 6, 1⟩, ⟨2024, 6, 2⟩, ⟨2024, 6, 3⟩])]
      ⟨2024, 6, 1⟩ ⟨2024, 6, 4⟩ none (Or.inl rfl)).1,
   (getNumAvailableSites_nights_default
      [("s1", [⟨2024, 6, 1⟩, ⟨2024, 6, 2⟩, ⟨2024, 6, 3⟩])]
      ⟨2024, 6, 1⟩ ⟨2024, 6, 4⟩ none (Or.inl rfl)).2
      (([⟨2024, 6, 1⟩, ⟨2024, 6, 2⟩, ⟨2024, 6, 3⟩] : List YMD).map YMD.toOrdinal)
      (by decide) (YMD.toOrdinal ⟨2024, 6, 1⟩) (by decide)⟩

/-- **C8.** Non-success transport responses are fatal and uncaught at every
layer: (1) `send_request` raises on any status other than 200; (2) the park
loop of `get_availabilities` does not catch the error — it aborts the
remaining parks and propagates the pair unchanged; (3) the polling loop does
not retry after an error in the first tick of an execution: it logs the
exception (`LOG.exception`, the trailing `logError` event) and re-raises it
to the caller, with no sleep and no further event after the failing pass's
events. -/
theorem nonsuccess_fetch_aborts_loop :
    (∀ (st : Nat) (body : MonthRecord), st ≠ 200 →
      sendRequest ⟨st, body⟩ = Except.error st) ∧
    (∀ (env : ApiTick) (parkId : Nat) (parks : List Nat) (startD endD : YMD)
        (ct : Option String) (n : Option Int) (avail : Bool) (last : Option LastVars)
        (evs : List Event) (e : Nat),
      getParkInformation env parkId startD endD ct = (evs, Except.error e) →
      evalParks env startD endD ct n (parkId :: parks) avail last =
        (evs, Except.error e)) ∧
    (∀ (env : Nat → ApiTick) (startD endD : YMD) (parks : List Nat)
        (ct : Option String) (n : Option Int) (tr : List Event) (e : Nat) (fuel : Nat),
      getAvailabilities (env 0) startD endD parks ct n = (tr, Except.error e) →
      executeCheckEveryMin env startD endD parks ct n fuel =
        (tr ++ [Event.logError], Except.error e) ∧
      ∀ k, Event.sleep k ∉ tr ++ [Event.logError]) := by
  refine ⟨?_, ?_, ?_⟩
  · intro st body h
    simp [sendRequest, h]
  · intro env parkId parks startD endD ct n avail last evs e hpi
    simp only [evalParks, hpi]
  · intro env startD endD parks ct n tr e fuel hga
    have hrl : runLoop env startD endD parks ct n fuel 0 = (tr, Except.error e) := by
      cases fuel with
      | zero => simp only [runLoop, hga]
      | succ f => simp only [runLoop, hga]
    constructor
    · unfold executeCheckEveryMin
      rw [hrl]
    · intro k h
      rcases List.mem_append.mp h with h | h
      · exact sleep_not_mem_getAvailabilities (env 0) startD endD parks ct n k
          (by rw [hga]; exact h)
      · exact Event.noConfusion (List.mem_singleton.mp h)

/-- Witness for `nonsuccess_fetch_aborts_loop`: with an availability endpoint
that always answers 503, the whole `execute_check_every_min` run aborts after
the single failing fetch, logs, and re-raises the error — even with fuel for
five more ticks. -/
theorem nonsuccess_fetch_aborts_loop_witness :
    executeCheckEveryMin envSeqFail ⟨2024, 6, 1⟩ ⟨2024, 6, 4⟩ [1] none none 5 =
      ([Event.fetchAvail 1 (2024, 6), Event.logError], Except.error 503) :=
  (nonsuccess_fetch_aborts_loop.2.2 envSeqFail ⟨2024, 6, 1⟩ ⟨2024, 6, 4⟩ [1] none none
    [Event.fetchAvail 1 (2024, 6)] 503 5 rfl).1

/-- **C9.** If every evaluation pass before tick `t` reports no availability
and the pass at tick `t` reports a summary, then the polling loop (with
enough fuel to reach tick `t`, however much more it may have) terminates at
tick `t` and returns exactly that summary; its complete event trace is the
traces of ticks `0..t-1`, each followed by the fixed `time.sleep(60)`, then
the trace of tick `t` — nothing afterwards, so no fetch is issued after the
first qualifying tick, and the retries before it are unbounded in fuel. -/
theorem runLoop_stops_at_first_success (env : Nat → ApiTick) (startD endD : YMD)
    (parks : List Nat) (ct : Option String) (n : Option Int) (out : String) :
    ∀ (t fuel : Nat), t ≤ fuel →
      (∀ s, s < t →
        (getAvailabilities (env s) startD endD parks ct n).2 = Except.ok none) →
      (getAvailabilities (env t) startD endD parks ct n).2 = Except.ok (some out) →
      runLoop env startD endD parks ct n fuel 0 =
        (((List.range t).flatMap fun s =>
            (getAvailabilities (env s) startD endD parks ct n).1 ++
              [Event.sleep 60]) ++
          (getAvailabilities (env t) startD endD parks ct n).1,
         Except.ok (some out)) := by
  intro t
  induction t generalizing env with
  | zero =>
      intro fuel hle hbef hsucc
      cases hga : getAvailabilities (env 0) startD endD parks ct n with
      | mk evs r =>
          have hr : r = Except.ok (some out) := by rw [hga] at hsucc; exact hsucc
          subst hr
          cases fuel with
          | zero => simp [runLoop, hga]
          | succ f => simp [runLoop, hga]
  | succ t iht =>
      intro fuel hle hbef hsucc
      cases fuel with
      | zero => exact absurd hle (by omega)
      | succ f =>
          have hb0 : (getAvailabilities (env 0) startD endD parks ct n).2 =
              Except.ok none := hbef 0 (Nat.succ_pos t)
          cases hga : getAvailabilities (env 0) startD endD parks ct n with
          | mk evs r =>
              have hr : r = Except.ok none := by rw [hga] at hb0; exact hb0
              subst hr
              have hrest := iht (fun u => env (u + 1)) f (by omega)
                (fun s hs => hbef (s + 1) (by omega)) hsucc
              simp only [runLoop, hga]
              rw [runLoop_shift startD endD parks ct n env f 0, hrest,
                flatMap_range_succ]
              simp [hga, List.append_assoc]

/-- Witness for `runLoop_stops_at_first_success`: under `envSeq` nothing is
available on tick 0 and park 1 qualifies on tick 1, so the loop sleeps once
and terminates at tick 1 with park 1's summary. -/
theorem runLoop_stops_at_first_success_witness :
    runLoop envSeq ⟨2024, 6, 1⟩ ⟨2024, 6, 4⟩ [1] none none 1 0 =
      (((List.range 1).flatMap fun s =>
          (getAvailabilities (envSeq s) ⟨2024, 6, 1⟩ ⟨2024, 6, 4⟩ [1] none none).1 ++
            [Event.sleep 60]) ++
        (getAvailabilities (envSeq 1) ⟨2024, 6, 1⟩ ⟨2024, 6, 4⟩ [1] none none).1,
       Except.ok (some ("🏕 One (1): 1 site(s) available out of 1 site(s)" ++
         "\nThere are campsites available from 2024-06-01 to 2024-06-04!!!"))) :=
  runLoop_stops_at_first_success envSeq ⟨2024, 6, 1⟩ ⟨2024, 6, 4⟩ [1] none none
    ("🏕 One (1): 1 site(s) available out of 1 site(s)" ++
      "\nThere are campsites available from 2024-06-01 to 2024-06-04!!!")
    1 1 (Nat.le_refl 1)
    (fun s hs => by
      have h0 : s = 0 := by omega
      subst h0
      rfl)
    rfl

/-- **C10.** `get_num_available_sites` returns a pair
`(num_available, maximum)` with `num_available ≤ maximum` and `maximum` equal
to the number of sites in the input mapping; each site contributes at most
once to the qualifying count (it is a `countP` over the site entries). -/
theorem getNumAvailableSites_count_bounds (parkInformation : List (String × List YMD))
    (startD endD : YMD) (nights : Option Int) :
    (getNumAvailableSites parkInformation startD endD nights).1 ≤
      (getNumAvailableSites parkInformation startD endD nights).2 ∧
    (getNumAvailableSites parkInformation startD endD nights).2 =
      parkInformation.length := by
  unfold getNumAvailableSites
  exact ⟨List.countP_le_length _, rfl⟩

end Camping
